import Mathlib

/-!
Verification of the `gba-from-scratch` runtime and register layer.

The development embeds, as executable Lean definitions:
* the bit-packed value operations (`u16_with_value`, `u16_get_value`,
  `u16_get_bit`, `u16_with_bit`) used by `src/lib.rs` via the external
  `bitfrob` crate, modelled from the specification of §4.4;
* the register types of `src/lib.rs` (`Color`, `KeyInput`, `DisplayControl`,
  `ObjAttr0/1/2`, `ObjAttr`), with each 16-bit wrapper represented as a `Nat`
  below `2 ^ 16`;
* the register-family address computation used by `OBJ_ATTRS`;
* the boot trampoline's word-copy and word-clear assembly loops of
  `src/asm_runtime.rs`, as state-transition functions over a byte-addressed
  memory, with ARM signed flag conditions made explicit.
-/

/-- Width of a machine word register, `2 ^ 32`. -/
def regW : Nat := 2 ^ 32

/-- Modelled from the spec (§4.4, for the external `bitfrob` crate's
`u16_with_value`, which `src/lib.rs` calls): returns a new value with only
the bits in `[low, high]` replaced; a replacement wider than the range is
masked (low bits kept, high bits discarded).  The result keeps the bits of
`old` below `low`, stores the low `high - low + 1` bits of `val` at `low`,
and keeps the bits of `old` above `high`. -/
def u16_with_value (low high old val : Nat) : Nat :=
  old % 2 ^ low + val % 2 ^ (high - low + 1) * 2 ^ low
    + old / 2 ^ (high + 1) * 2 ^ (high + 1)

/-- Modelled from the spec (§4.4): returns the unsigned integer stored in
bits `[low, high]` inclusive, right-shifted to start at bit 0. -/
def u16_get_value (low high x : Nat) : Nat :=
  x / 2 ^ low % 2 ^ (high - low + 1)

/-- Modelled from the spec (§4.4, for `bitfrob`'s `u16_get_bit`): whether a
single bit is set. -/
def u16_get_bit (pos x : Nat) : Bool :=
  Nat.testBit x pos

/-- Modelled from the spec (§4.4, for `bitfrob`'s `u16_with_bit`): a new
value with only the bit at `pos` replaced by `flag`. -/
def u16_with_bit (pos old : Nat) (flag : Bool) : Nat :=
  u16_with_value pos pos old (if flag then 1 else 0)

/-- Rust's `x as u16` on an `i16` value: the two's-complement bit pattern,
i.e. reduction modulo `2 ^ 16`. -/
def i16_as_u16 (x : Int) : Nat :=
  (x % 65536).toNat

theorem i16_as_u16_lt (x : Int) : i16_as_u16 x < 65536 := by
  unfold i16_as_u16; omega

/-! ### Arithmetic facts about `u16_with_value` -/

theorem withValue_decompose (low high old val : Nat) (h : low ≤ high) :
    u16_with_value low high old val =
      old % 2 ^ low + 2 ^ low * (val % 2 ^ (high - low + 1)
        + old / 2 ^ (high + 1) * 2 ^ (high - low + 1)) := by
  unfold u16_with_value
  have hpow : 2 ^ (high + 1) = 2 ^ low * 2 ^ (high - low + 1) := by
    rw [← pow_add]; congr 1; omega
  rw [hpow]; ring

theorem withValue_get (low high old val : Nat) (h : low ≤ high) :
    u16_get_value low high (u16_with_value low high old val) =
      val % 2 ^ (high - low + 1) := by
  rw [withValue_decompose low high old val h]
  unfold u16_get_value
  rw [Nat.add_mul_div_left _ _ (Nat.pos_pow_of_pos low (by norm_num)),
    Nat.div_eq_of_lt (Nat.mod_lt _ (Nat.pos_pow_of_pos low (by norm_num))),
    Nat.zero_add, Nat.add_mul_mod_self_right,
    Nat.mod_mod_of_dvd _ dvd_rfl]

theorem withValue_mod_low (low high old val : Nat) (h : low ≤ high) :
    u16_with_value low high old val % 2 ^ low = old % 2 ^ low := by
  rw [withValue_decompose low high old val h, Nat.add_mul_mod_self_left,
    Nat.mod_mod_of_dvd _ dvd_rfl]

theorem withValue_div_high (low high old val : Nat) (h : low ≤ high) :
    u16_with_value low high old val / 2 ^ (high + 1) = old / 2 ^ (high + 1) := by
  unfold u16_with_value
  have hpow : 2 ^ (high + 1) = 2 ^ low * 2 ^ (high - low + 1) := by
    rw [← pow_add]; congr 1; omega
  have hlow : old % 2 ^ low < 2 ^ low :=
    Nat.mod_lt _ (Nat.pos_pow_of_pos low (by norm_num))
  have hval : val % 2 ^ (high - low + 1) * 2 ^ low
      ≤ (2 ^ (high - low + 1) - 1) * 2 ^ low := by
    have := Nat.mod_lt val (Nat.pos_pow_of_pos (high - low + 1) (show 0 < 2 by norm_num))
    exact Nat.mul_le_mul_right _ (by omega)
  have hsmall : old % 2 ^ low + val % 2 ^ (high - low + 1) * 2 ^ low
      < 2 ^ (high + 1) := by
    have h1 : (2 ^ (high - low + 1) - 1) * 2 ^ low
        = 2 ^ (high + 1) - 2 ^ low := by
      rw [Nat.sub_mul, one_mul, hpow, Nat.mul_comm]
    have h2 : 2 ^ low ≤ 2 ^ (high + 1) :=
      Nat.pow_le_pow_right (by norm_num) (by omega)
    omega
  rw [Nat.add_mul_div_right _ _ (Nat.pos_pow_of_pos (high + 1) (by norm_num)),
    Nat.div_eq_of_lt hsmall, Nat.zero_add]

theorem withValue_testBit_low {low high old val i : Nat} (h : low ≤ high)
    (hi : i < low) :
    Nat.testBit (u16_with_value low high old val) i = Nat.testBit old i := by
  have h1 := Nat.testBit_mod_two_pow (u16_with_value low high old val) low i
  have h2 := Nat.testBit_mod_two_pow old low i
  rw [withValue_mod_low low high old val h] at h1
  rw [h2] at h1
  simpa [hi] using h1.symm

theorem withValue_testBit_high {low high old val i : Nat} (h : low ≤ high)
    (hi : high < i) :
    Nat.testBit (u16_with_value low high old val) i = Nat.testBit old i := by
  have hrw : i = (high + 1) + (i - (high + 1)) := by omega
  rw [hrw, ← Nat.testBit_shiftRight (u16_with_value low high old val),
    ← Nat.testBit_shiftRight old]
  rw [Nat.shiftRight_eq_div_pow, Nat.shiftRight_eq_div_pow,
    withValue_div_high low high old val h]

/-! ### Register value types from `src/lib.rs` -/

/-- `Color::rgb(r, g, b)` from `src/lib.rs`: `r | (g << 5) | (b << 10)` on
`u16` operands (Rust `<<` on `u16` drops the bits shifted above bit 15). -/
def Color.rgb (r g b : Nat) : Nat :=
  r ||| (g <<< 5) % 65536 ||| (b <<< 10) % 65536

/-- `KeyInput::a` from `src/lib.rs`: `!u16_get_bit(0, self.0)`. -/
def KeyInput.a (x : Nat) : Bool := ! u16_get_bit 0 x

/-- `KeyInput::b` from `src/lib.rs`: `!u16_get_bit(1, self.0)`. -/
def KeyInput.b (x : Nat) : Bool := ! u16_get_bit 1 x

/-- `KeyInput::select` from `src/lib.rs`: `!u16_get_bit(2, self.0)`. -/
def KeyInput.select (x : Nat) : Bool := ! u16_get_bit 2 x

/-- `KeyInput::start` from `src/lib.rs`: `!u16_get_bit(3, self.0)`. -/
def KeyInput.start (x : Nat) : Bool := ! u16_get_bit 3 x

/-- `KeyInput::right` from `src/lib.rs`: `!u16_get_bit(4, self.0)`. -/
def KeyInput.right (x : Nat) : Bool := ! u16_get_bit 4 x

/-- `KeyInput::left` from `src/lib.rs`: `!u16_get_bit(5, self.0)`. -/
def KeyInput.left (x : Nat) : Bool := ! u16_get_bit 5 x

/-- `KeyInput::up` from `src/lib.rs`: `!u16_get_bit(6, self.0)`. -/
def KeyInput.up (x : Nat) : Bool := ! u16_get_bit 6 x

/-- `KeyInput::down` from `src/lib.rs`: `!u16_get_bit(7, self.0)`. -/
def KeyInput.down (x : Nat) : Bool := ! u16_get_bit 7 x

/-- `KeyInput::r` from `src/lib.rs`: `!u16_get_bit(8, self.0)`. -/
def KeyInput.r (x : Nat) : Bool := ! u16_get_bit 8 x

/-- `KeyInput::l` from `src/lib.rs`: `!u16_get_bit(9, self.0)`. -/
def KeyInput.l (x : Nat) : Bool := ! u16_get_bit 9 x

/-- `DisplayControl::new()` from `src/lib.rs`. -/
def DisplayControl.new : Nat := 0

/-- `DisplayControl::with_linear_obj_tiles` from `src/lib.rs`:
`u16_with_bit(6, self.0, linear)`. -/
def DisplayControl.with_linear_obj_tiles (s : Nat) (linear : Bool) : Nat :=
  u16_with_bit 6 s linear

/-- `DisplayControl::with_forced_blank` from `src/lib.rs`:
`u16_with_bit(7, self.0, blank)`. -/
def DisplayControl.with_forced_blank (s : Nat) (blank : Bool) : Nat :=
  u16_with_bit 7 s blank

/-- `DisplayControl::with_objects` from `src/lib.rs`:
`u16_with_bit(12, self.0, objects)`. -/
def DisplayControl.with_objects (s : Nat) (objects : Bool) : Nat :=
  u16_with_bit 12 s objects

/-- `ObjAttr0::new()` from `src/lib.rs`. -/
def ObjAttr0.new : Nat := 0

/-- `ObjAttr0::with_y` from `src/lib.rs`:
`u16_with_value(0, 7, self.0, y as u16)` with `y : i16`. -/
def ObjAttr0.with_y (s : Nat) (y : Int) : Nat :=
  u16_with_value 0 7 s (i16_as_u16 y)

/-- `ObjAttr1::new()` from `src/lib.rs`. -/
def ObjAttr1.new : Nat := 0

/-- `ObjAttr1::with_size` from `src/lib.rs`:
`u16_with_value(14, 15, self.0, size)`. -/
def ObjAttr1.with_size (s size : Nat) : Nat :=
  u16_with_value 14 15 s size

/-- `ObjAttr1::with_x` from `src/lib.rs`:
`u16_with_value(0, 9, self.0, x as u16)` with `x : i16`. -/
def ObjAttr1.with_x (s : Nat) (x : Int) : Nat :=
  u16_with_value 0 9 s (i16_as_u16 x)

/-- `ObjAttr2::new()` from `src/lib.rs`. -/
def ObjAttr2.new : Nat := 0

/-- `ObjAttr2::with_tile` from `src/lib.rs`:
`u16_with_value(0, 9, self.0, tile)`. -/
def ObjAttr2.with_tile (s tile : Nat) : Nat :=
  u16_with_value 0 9 s tile

/-- `ObjAttr` from `src/lib.rs`: the triple `(ObjAttr0, ObjAttr1, ObjAttr2)`
of 16-bit attribute words. -/
def ObjAttr : Type := Nat × Nat × Nat

instance : DecidableEq ObjAttr := by unfold ObjAttr; infer_instance

/-- `ObjAttr::new()` from `src/lib.rs`. -/
def ObjAttr.new : ObjAttr := (ObjAttr0.new, ObjAttr1.new, ObjAttr2.new)

/-- `ObjAttr::with_size` from `src/lib.rs`: updates the `ObjAttr1` word. -/
def ObjAttr.with_size (a : ObjAttr) (size : Nat) : ObjAttr :=
  (a.1, ObjAttr1.with_size a.2.1 size, a.2.2)

/-- `ObjAttr::with_tile` from `src/lib.rs`: updates the `ObjAttr2` word. -/
def ObjAttr.with_tile (a : ObjAttr) (tile : Nat) : ObjAttr :=
  (a.1, a.2.1, ObjAttr2.with_tile a.2.2 tile)

/-- `ObjAttr::with_x` from `src/lib.rs`: updates the `ObjAttr1` word. -/
def ObjAttr.with_x (a : ObjAttr) (x : Int) : ObjAttr :=
  (a.1, ObjAttr1.with_x a.2.1 x, a.2.2)

/-- `ObjAttr::with_y` from `src/lib.rs`: updates the `ObjAttr0` word. -/
def ObjAttr.with_y (a : ObjAttr) (y : Int) : ObjAttr :=
  (ObjAttr0.with_y a.1 y, a.2.1, a.2.2)

/-! ### Register family addressing -/

/-- Modelled from the spec (§4.5, for the external `voladdress` crate's
`VolSeries::index`, which `src/lib.rs` instantiates): the element address is
`base + index * stride`, where `stride` is the crate's const parameter `S`,
the distance in bytes between consecutive elements. -/
def volSeries_address (base stride i : Nat) : Nat := base + i * stride

/-- The `OBJ_ATTRS` family as declared in `src/lib.rs`:
`VolSeries<ObjAttr, Safe, Safe, 128, 64>` at base `0x0700_0000`, i.e. the
stride const parameter is `64`. -/
def OBJ_ATTRS_address (i : Nat) : Nat := volSeries_address 0x07000000 64 i

/-! ### Byte-addressed memory and ARM word accesses

The boot loops of `src/asm_runtime.rs` use `ldr`/`str` with post-indexed
addressing.  The linker contract word-aligns every region, so a word access
at address `a` is modelled as a little-endian access to the four bytes
`a, a+1, a+2, a+3`. -/

/-- Byte-addressed memory: each address holds one byte (a value below 256,
see `Mem.wf`). -/
def Mem : Type := Nat → Nat

/-- Well-formed memory: every cell holds a byte value. -/
def Mem.wf (m : Mem) : Prop := ∀ a, m a < 256

/-- Little-endian 32-bit load of the four bytes at `a`. -/
def readWord (m : Mem) (a : Nat) : Nat :=
  m a + 256 * (m (a + 1) + 256 * (m (a + 2) + 256 * m (a + 3)))

/-- Little-endian 32-bit store of `w` at the four bytes at `a`. -/
def writeWord (m : Mem) (a w : Nat) : Mem := fun x =>
  if x = a then w % 256
  else if x = a + 1 then w / 256 % 256
  else if x = a + 2 then w / 65536 % 256
  else if x = a + 3 then w / 16777216 % 256
  else m x

theorem writeWord_wf {m : Mem} (h : Mem.wf m) (a w : Nat) :
    Mem.wf (writeWord m a w) := by
  intro x
  unfold writeWord
  split_ifs <;> first | omega | exact h x

theorem writeWord_frame {m : Mem} {a x : Nat} (w : Nat)
    (h : x < a ∨ a + 4 ≤ x) : writeWord m a w x = m x := by
  unfold writeWord
  rw [if_neg (by omega), if_neg (by omega), if_neg (by omega),
    if_neg (by omega)]

theorem writeWord_readWord_b0 {m : Mem} (hwf : Mem.wf m) (a s : Nat) :
    writeWord m a (readWord m s) (a + 0) = m (s + 0) := by
  have h0 := hwf s
  simp only [Nat.add_zero]
  unfold writeWord readWord
  rw [if_pos rfl]
  omega

theorem writeWord_readWord_b1 {m : Mem} (hwf : Mem.wf m) (a s : Nat) :
    writeWord m a (readWord m s) (a + 1) = m (s + 1) := by
  have h0 := hwf s
  have h1 := hwf (s + 1)
  unfold writeWord readWord
  rw [if_neg (by omega), if_pos rfl]
  omega

theorem writeWord_readWord_b2 {m : Mem} (hwf : Mem.wf m) (a s : Nat) :
    writeWord m a (readWord m s) (a + 2) = m (s + 2) := by
  have h0 := hwf s
  have h1 := hwf (s + 1)
  have h2 := hwf (s + 2)
  unfold writeWord readWord
  rw [if_neg (by omega), if_neg (by omega), if_pos rfl]
  omega

theorem writeWord_readWord_b3 {m : Mem} (hwf : Mem.wf m) (a s : Nat) :
    writeWord m a (readWord m s) (a + 3) = m (s + 3) := by
  have h0 := hwf s
  have h1 := hwf (s + 1)
  have h2 := hwf (s + 2)
  have h3 := hwf (s + 3)
  unfold writeWord readWord
  rw [if_neg (by omega), if_neg (by omega), if_neg (by omega), if_pos rfl]
  omega

/-! ### The boot trampoline loops of `src/asm_runtime.rs` -/

/-- Register file for the boot loops (`r0`-`r3`) together with memory. -/
structure AsmState where
  r0 : Nat
  r1 : Nat
  r2 : Nat
  r3 : Nat
  mem : Mem

/-- The signed (two's-complement) reading of a 32-bit register value, used
by the ARM `ge`/`gt` conditions that `subs r2, r2, #4` feeds. -/
def toSigned (x : Nat) : Int :=
  if x < 2 ^ 31 then (x : Int) else (x : Int) - 2 ^ 32

/-- One iteration of the `copy_words_r0r1r2r3!` loop body of
`src/asm_runtime.rs`:
`subs r2, r2, #4; ldrge r3, [r1], #4; strge r3, [r0], #4`.
After `subs r2, r2, #4` the `ge` condition holds exactly when the old `r2`
is at least 4 as a signed 32-bit value. -/
def copyStep (st : AsmState) : AsmState :=
  if 4 ≤ toSigned st.r2 then
    ⟨(st.r0 + 4) % regW, (st.r1 + 4) % regW, (st.r2 + (regW - 4)) % regW,
      readWord st.mem st.r1, writeWord st.mem st.r0 (readWord st.mem st.r1)⟩
  else
    ⟨st.r0, st.r1, (st.r2 + (regW - 4)) % regW, st.r3, st.mem⟩

theorem copyStep_r2 (st : AsmState) :
    (copyStep st).r2 = (st.r2 + (regW - 4)) % regW := by
  unfold copyStep
  split <;> rfl

theorem wrap_sub4_eq {x : Nat} (h4 : 4 ≤ x) (hx : x < regW) :
    (x + (regW - 4)) % regW = x - 4 := by
  have h1 : x + (regW - 4) = (x - 4) + regW := by unfold regW at *; omega
  rw [h1, Nat.add_mod_right, Nat.mod_eq_of_lt (by unfold regW at *; omega)]

theorem wrap_sub4_lt {x : Nat} (h : 4 < toSigned x) :
    (x + (regW - 4)) % regW < x := by
  unfold toSigned at h
  split_ifs at h with hlt
  · have hx : 4 < x := by exact_mod_cast h
    rw [wrap_sub4_eq (by omega) (by unfold regW at *; omega)]
    omega
  · have hx : 2 ^ 32 + 4 < x := by omega
    have := Nat.mod_lt (x + (regW - 4)) (show 0 < regW by unfold regW; norm_num)
    unfold regW at *
    omega

/-- The `copy_words_r0r1r2r3!` loop of `src/asm_runtime.rs` (the part after
the three `ldr` constant loads): repeat the loop body while the `bgt`
condition (old `r2` greater than 4 as signed) holds. -/
def copyLoop (st : AsmState) : AsmState :=
  if h : 4 < toSigned st.r2 then copyLoop (copyStep st) else copyStep st
termination_by st.r2
decreasing_by
  rw [copyStep_r2]
  exact wrap_sub4_lt h

/-- One iteration of the `zero_words_r0r1r2!` loop body of
`src/asm_runtime.rs`: `subs r2, r2, #4; strge r1, [r0], #4`. -/
def zeroStep (st : AsmState) : AsmState :=
  if 4 ≤ toSigned st.r2 then
    ⟨(st.r0 + 4) % regW, st.r1, (st.r2 + (regW - 4)) % regW, st.r3,
      writeWord st.mem st.r0 st.r1⟩
  else
    ⟨st.r0, st.r1, (st.r2 + (regW - 4)) % regW, st.r3, st.mem⟩

theorem zeroStep_r2 (st : AsmState) :
    (zeroStep st).r2 = (st.r2 + (regW - 4)) % regW := by
  unfold zeroStep
  split <;> rfl

/-- The `zero_words_r0r1r2!` loop of `src/asm_runtime.rs` (the part after
the register set-up): repeat the loop body while `bgt` holds. -/
def zeroLoop (st : AsmState) : AsmState :=
  if h : 4 < toSigned st.r2 then zeroLoop (zeroStep st) else zeroStep st
termination_by st.r2
decreasing_by
  rw [zeroStep_r2]
  exact wrap_sub4_lt h

/-- `copy_words_r0r1r2r3!(dest, src, count)` from `src/asm_runtime.rs`:
`ldr r0, =dest; ldr r1, =src; ldr r2, =count` and then the copy loop. -/
def copy_words_r0r1r2r3 (dest src count : Nat) (st : AsmState) : AsmState :=
  copyLoop ⟨dest, src, count, st.r3, st.mem⟩

/-- `zero_words_r0r1r2!(start, count)` from `src/asm_runtime.rs`, modelled
instruction by instruction as written: `ldr r0, =start`, then `mov r1, #0`,
then `ldr r0, =count` (the source loads `count` into `r0`, overwriting the
start pointer, and never initializes `r2`), and then the clear loop, which
enters with whatever value `r2` holds. -/
def zero_words_r0r1r2 (start count : Nat) (st : AsmState) : AsmState :=
  let st1 : AsmState := ⟨start, st.r1, st.r2, st.r3, st.mem⟩
  let st2 : AsmState := ⟨st1.r0, 0, st1.r2, st1.r3, st1.mem⟩
  let st3 : AsmState := ⟨count, st2.r1, st2.r2, st2.r3, st2.mem⟩
  zeroLoop st3

/-! ### Closed form of the copy loop -/

/-- Copy `n` consecutive 4-byte words from `s` to `d`, ascending. -/
def copyWords (d s : Nat) : Nat → Mem → Mem
  | 0, m => m
  | n + 1, m => copyWords (d + 4) (s + 4) n (writeWord m d (readWord m s))

theorem copyWords_wf (n : Nat) :
    ∀ d s (m : Mem), Mem.wf m → Mem.wf (copyWords d s n m) := by
  induction n with
  | zero => intro _ _ _ h; exact h
  | succ n ih => intro d s m h; exact ih _ _ _ (writeWord_wf h d (readWord m s))

theorem copyWords_frame (n : Nat) :
    ∀ d s (m : Mem) a, a < d ∨ d + 4 * n ≤ a → copyWords d s n m a = m a := by
  induction n with
  | zero => intro d s m a _; rfl
  | succ n ih =>
    intro d s m a ha
    have h1 : copyWords d s (n + 1) m a
        = copyWords (d + 4) (s + 4) n (writeWord m d (readWord m s)) a := rfl
    rw [h1, ih (d + 4) (s + 4) _ a (by omega),
      writeWord_frame _ (by omega)]

theorem copyWords_copied (n : Nat) :
    ∀ d s (m : Mem), Mem.wf m → (d + 4 * n ≤ s ∨ s + 4 * n ≤ d) →
      ∀ k, k < 4 * n → copyWords d s n m (d + k) = m (s + k) := by
  induction n with
  | zero => intro d s m _ _ k hk; omega
  | succ n ih =>
    intro d s m hwf hdisj k hk
    have h1 : copyWords d s (n + 1) m (d + k)
        = copyWords (d + 4) (s + 4) n (writeWord m d (readWord m s)) (d + k) :=
      rfl
    rw [h1]
    by_cases hk4 : k < 4
    · rw [copyWords_frame n (d + 4) (s + 4) _ (d + k) (by omega)]
      interval_cases k
      · exact writeWord_readWord_b0 hwf d s
      · exact writeWord_readWord_b1 hwf d s
      · exact writeWord_readWord_b2 hwf d s
      · exact writeWord_readWord_b3 hwf d s
    · have hk' : k - 4 < 4 * n := by omega
      have hd : d + k = (d + 4) + (k - 4) := by omega
      have hs : s + k = (s + 4) + (k - 4) := by omega
      rw [hd, ih (d + 4) (s + 4) _ (writeWord_wf hwf d _) (by omega) _ hk',
        writeWord_frame _ (by omega), ← hs]

theorem toSigned_of_lt {x : Nat} (h : x < 2 ^ 31) : toSigned x = (x : Int) :=
  if_pos h

theorem copyLoop_run (c : Nat) :
    ∀ d s r3v (m : Mem), c < 2 ^ 31 → d < regW → s < regW →
      d + c ≤ regW → s + c ≤ regW →
      (copyLoop ⟨d, s, c, r3v, m⟩).mem = copyWords d s (c / 4) m ∧
      (copyLoop ⟨d, s, c, r3v, m⟩).r0 = (d + 4 * (c / 4)) % regW ∧
      (copyLoop ⟨d, s, c, r3v, m⟩).r1 = (s + 4 * (c / 4)) % regW := by
  induction c using Nat.strong_induction_on with
  | _ c ih =>
    intro d s r3v m hc hd hs hdc hsc
    have hw : regW = 4294967296 := rfl
    rw [copyLoop]
    dsimp only
    split_ifs with hgt
    · -- `bgt` taken: one word copied, then the loop repeats
      rw [toSigned_of_lt hc] at hgt
      have hc4 : 4 < c := by exact_mod_cast hgt
      have hstep : copyStep ⟨d, s, c, r3v, m⟩ =
          ⟨d + 4, s + 4, c - 4, readWord m s,
            writeWord m d (readWord m s)⟩ := by
        unfold copyStep
        dsimp only
        rw [if_pos (by rw [toSigned_of_lt hc]; exact_mod_cast le_of_lt hc4),
          Nat.mod_eq_of_lt (by omega), Nat.mod_eq_of_lt (by omega),
          wrap_sub4_eq (by omega) (by omega)]
      rw [hstep]
      obtain ⟨ihm, ihr0, ihr1⟩ :=
        ih (c - 4) (by omega) (d + 4) (s + 4) (readWord m s)
          (writeWord m d (readWord m s)) (by omega) (by omega) (by omega)
          (by omega) (by omega)
      have hdiv : c / 4 = (c - 4) / 4 + 1 := by omega
      refine ⟨?_, ?_, ?_⟩
      · rw [ihm, hdiv]
        rfl
      · rw [ihr0]
        congr 1
        omega
      · rw [ihr1]
        congr 1
        omega
    · -- `bgt` not taken: at most one final word
      rw [toSigned_of_lt hc] at hgt
      have hc4 : c ≤ 4 := by omega
      by_cases hge : 4 ≤ c
      · have hceq : c = 4 := by omega
        subst hceq
        have hstep : copyStep ⟨d, s, 4, r3v, m⟩ =
            ⟨(d + 4) % regW, (s + 4) % regW, 0, readWord m s,
              writeWord m d (readWord m s)⟩ := by
          unfold copyStep
          dsimp only
          rw [if_pos (by rw [toSigned_of_lt (by norm_num)]; norm_num),
            wrap_sub4_eq (by omega) (by omega)]
        rw [hstep]
        exact ⟨rfl, rfl, rfl⟩
      · have hstep : copyStep ⟨d, s, c, r3v, m⟩ =
            ⟨d, s, (c + (regW - 4)) % regW, r3v, m⟩ := by
          unfold copyStep
          dsimp only
          rw [if_neg (by rw [toSigned_of_lt hc]; intro hcon; omega)]
        rw [hstep]
        have hdiv : c / 4 = 0 := by omega
        rw [hdiv]
        refine ⟨rfl, ?_, ?_⟩
        · dsimp only
          rw [Nat.mul_zero, Nat.add_zero, Nat.mod_eq_of_lt hd]
        · dsimp only
          rw [Nat.mul_zero, Nat.add_zero, Nat.mod_eq_of_lt hs]

/-! ### Claims C1 and C2: the boot trampoline loops -/

/-- A demonstration uninitialized-data region: every byte reads 1. -/
def bssDemoMem : Mem := fun _ => 1

/-- Claim C1 (code bug): the zero-words loop is claimed to set `count / 4`
words starting at the region start to zero, but the source loads `count`
into `r0` instead of `r2` and never initializes `r2`.  Run at
`start = 0x0300_0000`, `count = 8` (a multiple of 4) with `r2 = 0` — the
value the preceding copy loop leaves when its own count is a multiple of
4 — the loop stores nothing: the first byte of the region still reads 1,
where the claim requires 0. -/
theorem c1_zero_words_clears_nothing :
    (zero_words_r0r1r2 0x03000000 8 ⟨0, 0, 0, 0, bssDemoMem⟩).mem 0x03000000 = 1
      ∧ (1 : Nat) ≠ 0 := by
  constructor
  · have h1 : zero_words_r0r1r2 0x03000000 8 ⟨0, 0, 0, 0, bssDemoMem⟩
        = zeroLoop ⟨8, 0, 0, 0, bssDemoMem⟩ := rfl
    rw [h1, zeroLoop]
    dsimp only
    rw [dif_neg (by norm_num [toSigned])]
    unfold zeroStep
    dsimp only
    rw [if_neg (by norm_num [toSigned])]
    rfl
  · norm_num

/-- Memory for the C2 counterexample: bytes in ROM (at or above
`0x0800_0000`) read 7, all other bytes read 1. -/
def c2Mem : Mem := fun a => if a < 0x08000000 then 1 else 7

/-- Claim C2 counterexample: for `count = 2^31` (a multiple of 4, so the
claim demands `2^31 / 4 > 0` words copied and the destination byte-identical
to the source), the loop's signed `ge`/`gt` conditions see `2^31` as
negative and copy nothing: the first destination byte keeps its old value 1
while the source byte reads 7. -/
theorem c2_counterexample :
    2 ^ 31 % 4 = 0 ∧ 0 < 2 ^ 31 / 4 ∧ c2Mem 0x08000000 = 7 ∧
    (copy_words_r0r1r2r3 0x02000000 0x08000000 (2 ^ 31)
      ⟨0, 0, 0, 0, c2Mem⟩).mem 0x02000000 = 1 ∧
    (1 : Nat) ≠ 7 := by
  refine ⟨by norm_num, by norm_num, by norm_num [c2Mem], ?_, by norm_num⟩
  have h1 : copy_words_r0r1r2r3 0x02000000 0x08000000 (2 ^ 31)
      ⟨0, 0, 0, 0, c2Mem⟩
      = copyLoop ⟨0x02000000, 0x08000000, 2 ^ 31, 0, c2Mem⟩ := rfl
  rw [h1, copyLoop]
  dsimp only
  rw [dif_neg (by norm_num [toSigned])]
  unfold copyStep
  dsimp only
  rw [if_neg (by norm_num [toSigned])]
  norm_num [c2Mem]

/-- Claim C2 (amended): for every byte count `c < 2^31` and non-overlapping,
non-wrapping source and destination regions, the copy loop copies exactly
`c / 4` words (`4 * (c / 4)` bytes) from the source to the destination in
ascending order, advancing both pointers by 4 per word; every byte outside
the `4 * (c / 4)` destination bytes is unchanged, so when `c` is a multiple
of 4 the destination is byte-identical to the source for `c` bytes, and
when it is not, the trailing partial word is not copied. -/
theorem c2_copy_words (dest src c : Nat) (st : AsmState)
    (hwf : Mem.wf st.mem) (hc : c < 2 ^ 31)
    (hdlt : dest < regW) (hslt : src < regW)
    (hdc : dest + c ≤ regW) (hsc : src + c ≤ regW)
    (hdisj : dest + c ≤ src ∨ src + c ≤ dest) :
    (∀ k, k < 4 * (c / 4) →
      (copy_words_r0r1r2r3 dest src c st).mem (dest + k) = st.mem (src + k)) ∧
    (∀ a, a < dest ∨ dest + 4 * (c / 4) ≤ a →
      (copy_words_r0r1r2r3 dest src c st).mem a = st.mem a) ∧
    (copy_words_r0r1r2r3 dest src c st).r0 = (dest + 4 * (c / 4)) % regW ∧
    (copy_words_r0r1r2r3 dest src c st).r1 = (src + 4 * (c / 4)) % regW := by
  have h1 : copy_words_r0r1r2r3 dest src c st
      = copyLoop ⟨dest, src, c, st.r3, st.mem⟩ := rfl
  obtain ⟨hm, hr0, hr1⟩ :=
    copyLoop_run c dest src st.r3 st.mem hc hdlt hslt hdc hsc
  rw [h1, hm, hr0, hr1]
  refine ⟨?_, ?_, rfl, rfl⟩
  · intro k hk
    exact copyWords_copied (c / 4) dest src st.mem hwf (by omega) k hk
  · intro a ha
    exact copyWords_frame (c / 4) dest src st.mem a ha

/-- Memory for the C2 witness: bytes below address 4 read 9, others 1. -/
def c2WMem : Mem := fun a => if a < 4 then 9 else 1

/-- Witness for `c2_copy_words` at `dest = 8`, `src = 0`, `c = 4`. -/
theorem c2_copy_words_witness :
    (copy_words_r0r1r2r3 8 0 4 ⟨0, 0, 0, 0, c2WMem⟩).mem 8 = c2WMem 0
      ∧ c2WMem 0 = 9 := by
  constructor
  · have hwf : Mem.wf c2WMem := by
      intro a
      show (if a < 4 then 9 else 1) < 256
      split <;> norm_num
    have h := (c2_copy_words 8 0 4 ⟨0, 0, 0, 0, c2WMem⟩ hwf (by norm_num)
      (by norm_num [regW]) (by norm_num [regW]) (by norm_num [regW])
      (by norm_num [regW]) (Or.inr (by norm_num))).1 0 (by norm_num)
    simpa using h
  · norm_num [c2WMem]

/-! ### Claim C3: Color round-trip -/

/-- Claim C3 counterexample: for the triple `(32, 0, 0)` the claim demands
that bits 5-9 of `Color::rgb(32, 0, 0)` read `0 & 31 = 0`, but `32`'s bit 5
leaks into the green channel and they read 1. -/
theorem c3_counterexample :
    u16_get_value 5 9 (Color.rgb 32 0 0) = 1 ∧ (0 : Nat) &&& 31 = 0 ∧
      (1 : Nat) ≠ 0 := by decide

/-- Claim C3 (amended): for channel arguments below 32 — the 5-bit channel
range — constructing `Color::rgb(r, g, b)` and extracting bits 0-4, 5-9 and
10-14 yields exactly `(r & 31, g & 31, b & 31)`. -/
theorem c3_rgb_roundtrip (r g b : Nat) (hr : r < 32) (hg : g < 32)
    (hb : b < 32) :
    u16_get_value 0 4 (Color.rgb r g b) = r &&& 31 ∧
    u16_get_value 5 9 (Color.rgb r g b) = g &&& 31 ∧
    u16_get_value 10 14 (Color.rgb r g b) = b &&& 31 := by
  have key : ∀ r' < 32, ∀ g' < 32, ∀ b' < 32,
      Color.rgb r' g' b' = r' + 32 * g' + 1024 * b' := by decide
  rw [key r hr g hg b hb]
  have hand : ∀ n : Nat, n &&& 31 = n % 32 := by
    intro n
    have h := Nat.and_pow_two_sub_one_eq_mod n 5
    norm_num at h
    exact h
  rw [hand r, hand g, hand b]
  unfold u16_get_value
  norm_num
  omega

/-- Witness for `c3_rgb_roundtrip` at `(r, g, b) = (5, 6, 7)`. -/
theorem c3_rgb_roundtrip_witness :
    u16_get_value 0 4 (Color.rgb 5 6 7) = 5 &&& 31 ∧
    u16_get_value 5 9 (Color.rgb 5 6 7) = 6 &&& 31 ∧
    u16_get_value 10 14 (Color.rgb 5 6 7) = 7 &&& 31 :=
  c3_rgb_roundtrip 5 6 7 (by norm_num) (by norm_num) (by norm_num)

/-! ### Claim C4: object attribute table addressing -/

/-- Claim C4 (code bug): `OBJ_ATTRS` is declared with stride const parameter
64, so element 1 is computed at `0x0700_0040`, not at the
`0x0700_0000 + 1 * 8` that the 8-byte OAM entry stride requires. -/
theorem c4_objattrs_stride :
    OBJ_ATTRS_address 1 = 0x07000040 ∧
      OBJ_ATTRS_address 1 ≠ 0x07000000 + 1 * 8 := by
  norm_num [OBJ_ATTRS_address, volSeries_address]

/-! ### Claims C5 and C6: bit-field round-trips -/

/-- Claim C5: for every field range `[low, high]` (within a 16-bit value,
`low ≤ high`), every start value `s` and every value `v`,
`with_value(low, high, v)` followed by `get_value(low, high)` returns
`v & ((1 << (high-low+1)) - 1)`, and every bit outside `[low, high]` is
unchanged from `s`. -/
theorem c5_with_value_roundtrip (low high s v : Nat) (hlh : low ≤ high)
    (hh : high ≤ 15) (hs : s < 65536) (hv : v < 65536) :
    u16_get_value low high (u16_with_value low high s v)
        = v &&& (2 ^ (high - low + 1) - 1) ∧
    ∀ i, i < low ∨ high < i →
      Nat.testBit (u16_with_value low high s v) i = Nat.testBit s i := by
  constructor
  · rw [withValue_get low high s v hlh, Nat.and_pow_two_sub_one_eq_mod]
  · intro i hi
    rcases hi with hi | hi
    · exact withValue_testBit_low hlh hi
    · exact withValue_testBit_high hlh hi

/-- Witness for `c5_with_value_roundtrip` with range `[0, 7]`,
`s = 0xAAAA`, `v = 511`. -/
theorem c5_with_value_roundtrip_witness :
    u16_get_value 0 7 (u16_with_value 0 7 43690 511) = 511 &&& (2 ^ 8 - 1) ∧
    Nat.testBit (u16_with_value 0 7 43690 511) 15 = Nat.testBit 43690 15 := by
  have h := c5_with_value_roundtrip 0 7 43690 511 (by norm_num) (by norm_num)
    (by norm_num) (by norm_num)
  exact ⟨h.1, h.2 15 (Or.inr (by norm_num))⟩

/-- Claim C6: for every bit position (within a 16-bit value), every start
value `s` and every flag `f`, `with_bit(pos, f)` followed by `get_bit(pos)`
returns `f`, and every other bit is unchanged from `s`. -/
theorem c6_with_bit_roundtrip (pos s : Nat) (f : Bool) (hp : pos ≤ 15)
    (hs : s < 65536) :
    u16_get_bit pos (u16_with_bit pos s f) = f ∧
    ∀ q, q ≠ pos →
      Nat.testBit (u16_with_bit pos s f) q = Nat.testBit s q := by
  constructor
  · have hget := withValue_get pos pos s (if f then 1 else 0) le_rfl
    unfold u16_get_value at hget
    have hw : pos - pos + 1 = 1 := by omega
    rw [hw, pow_one] at hget
    unfold u16_get_bit u16_with_bit
    rw [Nat.testBit_to_div_mod, hget]
    cases f <;> rfl
  · intro q hq
    unfold u16_with_bit
    rcases Nat.lt_or_ge q pos with h | h
    · exact withValue_testBit_low le_rfl h
    · exact withValue_testBit_high le_rfl (by omega)

/-- Witness for `c6_with_bit_roundtrip` at `pos = 6`, `s = 0xAAAA`,
`f = true`. -/
theorem c6_with_bit_roundtrip_witness :
    u16_get_bit 6 (u16_with_bit 6 43690 true) = true ∧
    Nat.testBit (u16_with_bit 6 43690 true) 0 = Nat.testBit 43690 0 := by
  have h := c6_with_bit_roundtrip 6 43690 true (by norm_num) (by norm_num)
  exact ⟨h.1, h.2 0 (by norm_num)⟩

/-! ### Claim C7: key input active-low decoding -/

/-- Claim C7: each of the ten button accessors returns `true` exactly when
its bit (bits 0-9 for a, b, select, start, right, left, up, down, r, l
respectively) is 0 in the raw value, and its result depends on no other
bit. -/
theorem c7_keyinput_active_low (x y : Nat) (hx : x < 65536)
    (hy : y < 65536) :
    ((KeyInput.a x = true ↔ Nat.testBit x 0 = false)
      ∧ (Nat.testBit x 0 = Nat.testBit y 0 → KeyInput.a x = KeyInput.a y)) ∧
    ((KeyInput.b x = true ↔ Nat.testBit x 1 = false)
      ∧ (Nat.testBit x 1 = Nat.testBit y 1 → KeyInput.b x = KeyInput.b y)) ∧
    ((KeyInput.select x = true ↔ Nat.testBit x 2 = false)
      ∧ (Nat.testBit x 2 = Nat.testBit y 2
          → KeyInput.select x = KeyInput.select y)) ∧
    ((KeyInput.start x = true ↔ Nat.testBit x 3 = false)
      ∧ (Nat.testBit x 3 = Nat.testBit y 3
          → KeyInput.start x = KeyInput.start y)) ∧
    ((KeyInput.right x = true ↔ Nat.testBit x 4 = false)
      ∧ (Nat.testBit x 4 = Nat.testBit y 4
          → KeyInput.right x = KeyInput.right y)) ∧
    ((KeyInput.left x = true ↔ Nat.testBit x 5 = false)
      ∧ (Nat.testBit x 5 = Nat.testBit y 5
          → KeyInput.left x = KeyInput.left y)) ∧
    ((KeyInput.up x = true ↔ Nat.testBit x 6 = false)
      ∧ (Nat.testBit x 6 = Nat.testBit y 6 → KeyInput.up x = KeyInput.up y)) ∧
    ((KeyInput.down x = true ↔ Nat.testBit x 7 = false)
      ∧ (Nat.testBit x 7 = Nat.testBit y 7
          → KeyInput.down x = KeyInput.down y)) ∧
    ((KeyInput.r x = true ↔ Nat.testBit x 8 = false)
      ∧ (Nat.testBit x 8 = Nat.testBit y 8 → KeyInput.r x = KeyInput.r y)) ∧
    ((KeyInput.l x = true ↔ Nat.testBit x 9 = false)
      ∧ (Nat.testBit x 9 = Nat.testBit y 9 → KeyInput.l x = KeyInput.l y)) := by
  unfold KeyInput.a KeyInput.b KeyInput.select KeyInput.start KeyInput.right
    KeyInput.left KeyInput.up KeyInput.down KeyInput.r KeyInput.l u16_get_bit
  refine ⟨⟨by simp, fun h => by rw [h]⟩, ⟨by simp, fun h => by rw [h]⟩,
    ⟨by simp, fun h => by rw [h]⟩, ⟨by simp, fun h => by rw [h]⟩,
    ⟨by simp, fun h => by rw [h]⟩, ⟨by simp, fun h => by rw [h]⟩,
    ⟨by simp, fun h => by rw [h]⟩, ⟨by simp, fun h => by rw [h]⟩,
    ⟨by simp, fun h => by rw [h]⟩, ⟨by simp, fun h => by rw [h]⟩⟩

/-- Witness for `c7_keyinput_active_low`: raw value `0xFFFE` (bit 0 clear)
reports the A button pressed. -/
theorem c7_keyinput_active_low_witness : KeyInput.a 65534 = true :=
  ((c7_keyinput_active_low 65534 65534 (by norm_num)
    (by norm_num)).1.1).mpr (by decide)

/-! ### Claim C8: sprite attribute build scenario -/

/-- The `with_size(1)` step of the C8 scenario. -/
def c8s (a : ObjAttr) : ObjAttr := ObjAttr.with_size a 1

/-- The `with_tile(1)` step of the C8 scenario. -/
def c8t (a : ObjAttr) : ObjAttr := ObjAttr.with_tile a 1

/-- The `with_x(10)` step of the C8 scenario. -/
def c8x (a : ObjAttr) : ObjAttr := ObjAttr.with_x a 10

/-- The `with_y(23)` step of the C8 scenario. -/
def c8y (a : ObjAttr) : ObjAttr := ObjAttr.with_y a 23

/-- The C8 scenario value `ObjAttr::new().with_size(1).with_tile(1)
.with_x(10).with_y(23)`. -/
def c8Target : ObjAttr := c8y (c8x (c8t (c8s ObjAttr.new)))

/-- Claim C8: applying `with_size(1)`, `with_tile(1)`, `with_x(10)`,
`with_y(23)` to `ObjAttr::new()` in any of the 24 orders produces the same
value, and re-extracting size (bits 14-15 of the second word), x (bits 0-9
of the second word), tile (bits 0-9 of the third word) and y (bits 0-7 of
the first word) yields 1, 10, 1 and 23. -/
theorem c8_objattr_build :
    (c8y (c8x (c8t (c8s ObjAttr.new))) = c8Target ∧
     c8x (c8y (c8t (c8s ObjAttr.new))) = c8Target ∧
     c8y (c8t (c8x (c8s ObjAttr.new))) = c8Target ∧
     c8t (c8y (c8x (c8s ObjAttr.new))) = c8Target ∧
     c8x (c8t (c8y (c8s ObjAttr.new))) = c8Target ∧
     c8t (c8x (c8y (c8s ObjAttr.new))) = c8Target ∧
     c8y (c8x (c8s (c8t ObjAttr.new))) = c8Target ∧
     c8x (c8y (c8s (c8t ObjAttr.new))) = c8Target ∧
     c8y (c8s (c8x (c8t ObjAttr.new))) = c8Target ∧
     c8s (c8y (c8x (c8t ObjAttr.new))) = c8Target ∧
     c8x (c8s (c8y (c8t ObjAttr.new))) = c8Target ∧
     c8s (c8x (c8y (c8t ObjAttr.new))) = c8Target ∧
     c8y (c8t (c8s (c8x ObjAttr.new))) = c8Target ∧
     c8t (c8y (c8s (c8x ObjAttr.new))) = c8Target ∧
     c8y (c8s (c8t (c8x ObjAttr.new))) = c8Target ∧
     c8s (c8y (c8t (c8x ObjAttr.new))) = c8Target ∧
     c8t (c8s (c8y (c8x ObjAttr.new))) = c8Target ∧
     c8s (c8t (c8y (c8x ObjAttr.new))) = c8Target ∧
     c8x (c8t (c8s (c8y ObjAttr.new))) = c8Target ∧
     c8t (c8x (c8s (c8y ObjAttr.new))) = c8Target ∧
     c8x (c8s (c8t (c8y ObjAttr.new))) = c8Target ∧
     c8s (c8x (c8t (c8y ObjAttr.new))) = c8Target ∧
     c8t (c8s (c8x (c8y ObjAttr.new))) = c8Target ∧
     c8s (c8t (c8x (c8y ObjAttr.new))) = c8Target) ∧
    (u16_get_value 14 15 c8Target.2.1 = 1 ∧
     u16_get_value 0 9 c8Target.2.1 = 10 ∧
     u16_get_value 0 9 c8Target.2.2 = 1 ∧
     u16_get_value 0 7 c8Target.1 = 23) := by decide

/-! ### Claim C9: display control build scenario -/

/-- Claim C9: `DisplayControl::new().with_objects(true)
.with_linear_obj_tiles(true)` as a raw 16-bit value is
`(1 << 12) | (1 << 6) = 0x1040`. -/
theorem c9_displaycontrol_value :
    DisplayControl.with_linear_obj_tiles
        (DisplayControl.with_objects DisplayControl.new true) true = 0x1040
      ∧ (0x1040 : Nat) = 1 <<< 12 ||| 1 <<< 6 := by decide

/-! ### Claim C10: signed coordinate truncation -/

/-- Claim C10: for every `i16` argument, `ObjAttr1::with_x` stores the
argument's two's-complement 16-bit pattern reduced mod 1024 in bits 0-9 and
`ObjAttr0::with_y` stores it reduced mod 256 in bits 0-7. -/
theorem c10_signed_truncation (s t : Nat) (x y : Int) (hs : s < 65536)
    (ht : t < 65536) (hx1 : -(2 ^ 15) ≤ x) (hx2 : x < 2 ^ 15)
    (hy1 : -(2 ^ 15) ≤ y) (hy2 : y < 2 ^ 15) :
    u16_get_value 0 9 (ObjAttr1.with_x s x) = i16_as_u16 x % 1024 ∧
    u16_get_value 0 7 (ObjAttr0.with_y t y) = i16_as_u16 y % 256 := by
  constructor
  · unfold ObjAttr1.with_x
    rw [withValue_get 0 9 s (i16_as_u16 x) (by norm_num)]
    norm_num
  · unfold ObjAttr0.with_y
    rw [withValue_get 0 7 t (i16_as_u16 y) (by norm_num)]
    norm_num

/-- Witness for `c10_signed_truncation` at `x = y = -1`: `with_y(-1)`
stores 255, `with_x(-1)` stores 1023. -/
theorem c10_signed_truncation_witness :
    u16_get_value 0 9 (ObjAttr1.with_x 0 (-1)) = 1023 ∧
    u16_get_value 0 7 (ObjAttr0.with_y 0 (-1)) = 255 := by
  have h := c10_signed_truncation 0 0 (-1) (-1) (by norm_num) (by norm_num)
    (by norm_num) (by norm_num) (by norm_num) (by norm_num)
  exact ⟨h.1.trans (by decide), h.2.trans (by decide)⟩
